import Mathlib

/-!
Shallow embedding of the response-cache subsystem of `bento2seldon`
(`src/bento2seldon/cache.py`, `src/bento2seldon/seldon.py`, and the
partial-batch algorithm of `src/bento2seldon/bento.py`).

The Redis store is modelled as a function from key strings to entries
carrying a value string and an optional absolute expiration instant;
every operation takes the current time `now : Nat` explicitly.  Python
exceptions (`ValueError` from tuple unpacking, pydantic validation
errors, `IndexError` from `list.pop`) are modelled with `Except String`.
Request/response serialization and the SHA-256 digest are fields of the
cache context, mirroring `request.json()`, `CacheValue.json()`,
`CacheValue.parse_raw` and `hashlib.sha256(...).hexdigest()`.
-/

namespace B2S

/-- `PRED_UNIT_KEY` from seldon.py. -/
def PRED_UNIT_KEY : String := "predictive_unit_id"

/-- First-match lookup in an association list, mirroring `dict.get` /
`key in dict` on Python dicts (which hold at most one binding per key). -/
def tagsGet : List (String × String) → String → Option String
  | [], _ => none
  | (k, v) :: rest, q => if q = k then some v else tagsGet rest q

/-- `Meta` (seldon.py lines 26-35).  Tag values are modelled as strings,
the only kind the caching policy ever compares against. -/
structure Meta where
  puid : String
  tags : List (String × String)
  routing : List (String × Int)
  requestPath : List (String × String)
deriving DecidableEq

/-- `Meta.__init__`: after field assignment, if the tags lack
`PRED_UNIT_KEY`, the process-wide predictive-unit id (`PRED_UNIT_ID`,
passed here explicitly) is inserted (seldon.py lines 32-35). -/
def metaInit (predUnitId : String) (puid : String) (tags : List (String × String))
    (routing : List (String × Int)) (requestPath : List (String × String)) : Meta :=
  { puid := puid
    tags :=
      if tagsGet tags PRED_UNIT_KEY = none then tags ++ [(PRED_UNIT_KEY, predUnitId)]
      else tags
    routing := routing
    requestPath := requestPath }

/-- `CacheValue` (cache.py lines 20-23). -/
structure CacheValue (Req Res : Type) where
  request : Req
  response : Res
  meta : Meta
deriving DecidableEq

/-- One stored Redis entry: its string value and, when a TTL has been
set, the absolute instant at which it expires. -/
structure StoreEntry where
  value : String
  expireAt : Option Nat
deriving DecidableEq

/-- The Redis store, as a map from key strings to entries. -/
def Store : Type := String → Option StoreEntry

/-- Whether an entry is still alive at instant `now`. -/
def liveEntry (e : StoreEntry) (now : Nat) : Bool :=
  match e.expireAt with
  | some t => now < t
  | none => true

/-- Redis `GET`: an expired entry behaves as missing. -/
def rget (s : Store) (k : String) (now : Nat) : Option String :=
  match s k with
  | some e => if liveEntry e now then some e.value else none
  | none => none

/-- Redis `SET key value [EX ex]`: unconditional overwrite; with `EX`
the entry expires `ex` after `now`, without it the entry persists. -/
def rset (s : Store) (k v : String) (ex : Option Nat) (now : Nat) : Store :=
  fun q => if q = k then some ⟨v, ex.map (now + ·)⟩ else s q

/-- Redis `EXPIRE key ex`: refresh the TTL of an existing live key;
a missing or already-expired key is left alone. -/
def rexpire (s : Store) (k : String) (ex : Nat) (now : Nat) : Store :=
  match s k with
  | some e =>
      if liveEntry e now then
        fun q => if q = k then some ⟨e.value, some (now + ex)⟩ else s q
      else s
  | none => s

/-- Last-wins lookup over a pair list: the value a Redis `MSET` of these
pairs (deduplicated dict-style, later bindings overriding) assigns to `q`. -/
def msetVal : List (String × String) → String → Option String
  | [], _ => none
  | (k, v) :: rest, q =>
      match msetVal rest q with
      | some v2 => some v2
      | none => if q = k then some v else none

/-- Redis `MSET`: writes every bound key without a TTL. -/
def rmset (s : Store) (pairs : List (String × String)) : Store :=
  fun q =>
    match msetVal pairs q with
    | some v => some ⟨v, none⟩
    | none => s q

/-- `EXPIRE` applied to each key of a list in order. -/
def expireAll (s : Store) (ks : List String) (ex : Nat) (now : Nat) : Store :=
  ks.foldl (fun st k => rexpire st k ex now) s

/-- Python dict insertion: update in place when the key is present,
append otherwise. -/
def pyDictInsert (d : List (String × String)) (k v : String) : List (String × String) :=
  if d.any (fun p => p.1 = k) then d.map (fun p => if p.1 = k then (k, v) else p)
  else d ++ [(k, v)]

/-- The Python dict built from a pair sequence (insertion order, later
values overriding earlier ones). -/
def pyDict (pairs : List (String × String)) : List (String × String) :=
  pairs.foldl (fun d p => pyDictInsert d p.1 p.2) []

/-- The fixed data of one `Cache` instance (cache.py lines 26-51):
service identity, the process globals `DEPLOYMENT_ID` and
`PRED_UNIT_ID`, the serialization functions, the expiration delta, and
whether a Redis client is present (`self._redis is not None`). -/
structure CacheCtx (Req Res : Type) where
  name : String
  version : String
  deploymentId : String
  predUnitId : String
  serializeReq : Req → String
  sha256Hex : String → String
  serializeCV : CacheValue Req Res → String
  parseCV : String → Option (CacheValue Req Res)
  expirationDelta : Nat
  redisAvailable : Bool

variable {Req Res : Type}

/-- `Cache._request_hash_to_key` (cache.py lines 57-58). -/
def requestHashToKey (c : CacheCtx Req Res) (h : String) : String :=
  c.name ++ ":" ++ c.deploymentId ++ ":" ++ c.version ++ ":request:" ++ h

/-- `Cache._request_to_key` (cache.py lines 53-55). -/
def requestToKey (c : CacheCtx Req Res) (r : Req) : String :=
  requestHashToKey c (c.sha256Hex (c.serializeReq r))

/-- `Cache._wrap_puid` (cache.py lines 60-61). -/
def wrapPuid (c : CacheCtx Req Res) (p : String) : String :=
  c.name ++ ":" ++ c.deploymentId ++ ":" ++ c.version ++ ":puid:" ++ p

/-- `Cache.should_cache` (cache.py lines 63-65):
`meta.tags.get(PRED_UNIT_KEY) == PRED_UNIT_ID`. -/
def should_cache (c : CacheCtx Req Res) (request : Req) (response : Res) (m : Meta) : Bool :=
  decide (tagsGet m.tags PRED_UNIT_KEY = some c.predUnitId)

/-- `Cache.set_response` (cache.py lines 67-81). -/
def set_response (c : CacheCtx Req Res) (s : Store) (now : Nat)
    (request : Req) (response : Res) (m : Meta) : Store :=
  if c.redisAvailable then
    if should_cache c request response m then
      let key := requestToKey c request
      let value : CacheValue Req Res := ⟨request, response, m⟩
      let puid := wrapPuid c m.puid
      rset (rset s puid key (some c.expirationDelta) now) key (c.serializeCV value)
        (some c.expirationDelta) now
    else s
  else s

/-- `Cache.get_response` (cache.py lines 83-103).  A truthy stored value
is parsed (`parse_raw` failure raising a validation error); on a hit the
index entry `wrapPuid puid -> key` is rewritten with the configured TTL. -/
def get_response (c : CacheCtx Req Res) (s : Store) (now : Nat)
    (puid : String) (request : Req) : Except String (Option Res × Store) :=
  if c.redisAvailable then
    let key := requestToKey c request
    match rget s key now with
    | none => .ok (none, s)
    | some v =>
        if v = "" then .ok (none, s)
        else
          match c.parseCV v with
          | none => .error "ValidationError"
          | some cv =>
              .ok (some cv.response, rset s (wrapPuid c puid) key (some c.expirationDelta) now)
  else .ok (none, s)

/-- The positions of `zip(requests, responses, metas)` accepted by
`should_cache` (the generator inside cache.py lines 109-121). -/
def acceptedTriples (c : CacheCtx Req Res) (requests : List Req) (responses : List Res)
    (metas : List Meta) : List (Req × Res × Meta) :=
  (requests.zip (responses.zip metas)).filter (fun t => should_cache c t.1 t.2.1 t.2.2)

/-- The index keys of a triple list (`puids` in cache.py line 112). -/
def puidsOf (c : CacheCtx Req Res) (ts : List (Req × Res × Meta)) : List String :=
  ts.map (fun t => wrapPuid c t.2.2.puid)

/-- The content keys of a triple list (`keys` in cache.py line 113). -/
def keysOf (c : CacheCtx Req Res) (ts : List (Req × Res × Meta)) : List String :=
  ts.map (fun t => requestToKey c t.1)

/-- The serialized cache values of a triple list (cache.py lines 114-116). -/
def valsOf (c : CacheCtx Req Res) (ts : List (Req × Res × Meta)) : List String :=
  ts.map (fun t => c.serializeCV ⟨t.1, t.2.1, t.2.2⟩)

/-- The key/value pairs fed to the `mset` of `set_responses`:
`{**dict(zip(puids, keys)), **dict(zip(keys, values))}` (cache.py 125). -/
def triplePairs (c : CacheCtx Req Res) (ts : List (Req × Res × Meta)) :
    List (String × String) :=
  (puidsOf c ts).zip (keysOf c ts) ++ (keysOf c ts).zip (valsOf c ts)

/-- The store produced by `Cache.set_responses` for a non-empty accepted
subset: one `MSET` of the merged puid->key and key->value dicts, then
`EXPIRE` over `keys + puids` (cache.py lines 123-128). -/
def batchSetCore (c : CacheCtx Req Res) (s : Store) (now : Nat)
    (ts : List (Req × Res × Meta)) : Store :=
  expireAll (rmset s (pyDict (triplePairs c ts))) (keysOf c ts ++ puidsOf c ts)
    c.expirationDelta now

/-- `Cache.set_responses` (cache.py lines 105-130).  When every position
is rejected (or the input is empty), the unpacking
`puids, keys, values = zip(*(...))` raises `ValueError`. -/
def set_responses (c : CacheCtx Req Res) (s : Store) (now : Nat)
    (requests : List Req) (responses : List Res) (metas : List Meta) :
    Except String Store :=
  if c.redisAvailable then
    let ts := acceptedTriples c requests responses metas
    if ts.isEmpty then .error "ValueError"
    else .ok (batchSetCore c s now ts)
  else .ok s

/-- One element of the `get_responses` list comprehension: a truthy raw
value is parsed, a missing or empty one yields `None`. -/
def parseOne (c : CacheCtx Req Res) : Option String → Except String (Option Res)
  | none => .ok none
  | some v =>
      if v = "" then .ok none
      else
        match c.parseCV v with
        | some cv => .ok (some cv.response)
        | none => .error "ValidationError"

/-- The `get_responses` list comprehension over `mget` results, raising
at the first value that fails to parse (cache.py lines 135-142). -/
def parseResponses (c : CacheCtx Req Res) :
    List (Option String) → Except String (List (Option Res))
  | [] => .ok []
  | v :: vs =>
      match parseOne c v with
      | .error e => .error e
      | .ok r => (parseResponses c vs).map (fun rest => r :: rest)

/-- `Cache.get_responses` (cache.py lines 132-166). -/
def get_responses (c : CacheCtx Req Res) (s : Store) (now : Nat)
    (puids : List String) (requests : List Req) :
    Except String (List (Option Res) × Store) :=
  if c.redisAvailable then
    let keys := requests.map (requestToKey c)
    match parseResponses c (keys.map (fun k => rget s k now)) with
    | .error e => .error e
    | .ok responses =>
        let wpuids := puids.map (wrapPuid c)
        let mapping := pyDict
          (((wpuids.zip (keys.zip responses)).filter (fun t => t.2.2.isSome)).map
            (fun t => (t.1, t.2.1)))
        if mapping.isEmpty then .ok (responses, s)
        else
          .ok (responses,
            expireAll (rmset s mapping) (mapping.map (fun p => p.1)) c.expirationDelta now)
  else .ok (List.replicate requests.length none, s)

/-- `Cache.get_cache_value` (cache.py lines 168-190): follow the index
entry to the content entry; any falsy intermediate yields `None`. -/
def get_cache_value (c : CacheCtx Req Res) (s : Store) (now : Nat) (puid : String) :
    Except String (Option (CacheValue Req Res)) :=
  if c.redisAvailable then
    match rget s (wrapPuid c puid) now with
    | none => .ok none
    | some k =>
        if k = "" then .ok none
        else
          match rget s k now with
          | none => .ok none
          | some v =>
              if v = "" then .ok none
              else
                match c.parseCV v with
                | some cv => .ok (some cv)
                | none => .error "ValidationError"
  else .ok none

/-- The merge loop of `_process_with_cache` (bento.py lines 329-331):
each `None` slot takes the next computed response via `pop(0)`; popping
an exhausted list raises `IndexError` (modelled as `none`). -/
def mergeLoop : List (Option Res) → List Res → Option (List (Option Res))
  | [], _ => some []
  | none :: rest, [] => none
  | none :: rest, f :: fs => (mergeLoop rest fs).map (fun out => some f :: out)
  | some r :: rest, fs => (mergeLoop rest fs).map (fun out => some r :: out)

/-- The miss-subset of requests, in original order (bento.py 310-314). -/
def missRequests (msgs : List (Meta × Req)) (responses : List (Option Res)) :
    List Req :=
  (((msgs.map (fun p => p.2)).zip responses).filter (fun p => p.2.isNone)).map
    (fun p => p.1)

/-- The metadata of the miss-subset, in original order (bento.py 315-321). -/
def missMetas (msgs : List (Meta × Req)) (responses : List (Option Res)) :
    List Meta :=
  ((msgs.zip responses).filter (fun p => p.2.isNone)).map (fun p => p.1.1)

/-- `BaseBatchPredictor._process_with_cache` (bento.py lines 294-336).
A message is its `meta` together with its `jsonData` request. -/
def processWithCache (c : CacheCtx Req Res) (s : Store) (now : Nat)
    (msgs : List (Meta × Req)) (processFn : List Req → List Res) :
    Except String (List (Option Res) × Store) :=
  match get_responses c s now (msgs.map (fun p => p.1.puid)) (msgs.map (fun p => p.2)) with
  | .error e => .error e
  | .ok (responses, s1) =>
      let uncachedRequests := missRequests msgs responses
      let uncachedMetas := missMetas msgs responses
      if uncachedRequests.isEmpty then .ok (responses, s1)
      else
        let uncachedResponses := processFn uncachedRequests
        match set_responses c s1 now uncachedRequests uncachedResponses uncachedMetas with
        | .error e => .error e
        | .ok s2 =>
            match mergeLoop responses uncachedResponses with
            | some merged => .ok (merged, s2)
            | none => .error "IndexError"

/-- Modelled from the spec (§8 batch/single equivalence): the
item-by-item sequence of `set_response` calls that `set_responses`
is claimed to be equivalent to. -/
def seqSet (c : CacheCtx Req Res) (s : Store) (now : Nat) :
    List (Req × Res × Meta) → Store
  | [] => s
  | (r, x, m) :: ts => seqSet c (set_response c s now r x m) now ts

/-- Modelled from the spec (§8 batch/single equivalence): the
item-by-item sequence of `get_response` calls that `get_responses`
is claimed to be equivalent to. -/
def seqGet (c : CacheCtx Req Res) (s : Store) (now : Nat) :
    List (String × Req) → Except String (List (Option Res) × Store)
  | [] => .ok ([], s)
  | (p, r) :: ts =>
      match get_response c s now p r with
      | .error e => .error e
      | .ok (v, s1) =>
          match seqGet c s1 now ts with
          | .error e => .error e
          | .ok (vs, s2) => .ok (v :: vs, s2)

/-! ### Concrete instances used by witnesses and counterexamples -/

/-- A metadata value whose tag matches the process predictive-unit id `"0"`. -/
def metaGood : Meta := ⟨"p1", [("predictive_unit_id", "0")], [], []⟩

/-- A metadata value with an explicitly different predictive-unit id. -/
def metaBad : Meta := ⟨"p2", [("predictive_unit_id", "1")], [], []⟩

/-- A cacheable metadata value carrying correlation id `"abc"`. -/
def metaAbc : Meta := ⟨"abc", [("predictive_unit_id", "0")], [], []⟩

/-- The cache value `ctxSample`'s parser returns. -/
def cvSample : CacheValue Nat Nat := ⟨0, 7, metaGood⟩

/-- The cache value `ctxAbc`'s parser returns. -/
def cvAbc : CacheValue Nat Nat := ⟨0, 7, metaAbc⟩

/-- A sample cache context over `Nat` requests/responses with the store
available; its serializer/parser round-trip on `cvSample`. -/
def ctxSample : CacheCtx Nat Nat :=
  { name := "svc", version := "1", deploymentId := "0", predUnitId := "0"
    serializeReq := fun r => toString r, sha256Hex := fun h => h
    serializeCV := fun _ => "v", parseCV := fun _ => some cvSample
    expirationDelta := 100, redisAvailable := true }

/-- Like `ctxSample` but parsing back `cvAbc`. -/
def ctxAbc : CacheCtx Nat Nat := { ctxSample with parseCV := fun _ => some cvAbc }

/-- Like `ctxSample` but with no Redis client. -/
def ctxOff : CacheCtx Nat Nat := { ctxSample with redisAvailable := false }

/-- The empty store. -/
def emptyStore : Store := fun _ => none

/-- A store holding one content entry for request `0` that expires at
instant 5. -/
def storeC2 : Store :=
  fun q => if q = requestToKey ctxSample 0 then some ⟨"v", some 5⟩ else none

/-- The store `get_responses ctxSample storeC2 0 ["p9"] [0]` produces:
the one-hit index mapping is `mset` and then expired. -/
def storeC2After : Store :=
  expireAll
    (rmset storeC2 (pyDict [(wrapPuid ctxSample "p9", requestToKey ctxSample 0)]))
    ((pyDict [(wrapPuid ctxSample "p9", requestToKey ctxSample 0)]).map (fun p => p.1))
    ctxSample.expirationDelta 0

/-! ### Helper lemmas about keys and the store -/

/-- A content key and an index key of the same cache never coincide:
after the shared identity portion, one continues with `:request:` and
the other with `:puid:`. -/
theorem key_ne_wrapPuid (c : CacheCtx Req Res) (h p : String) :
    requestHashToKey c h ≠ wrapPuid c p := by
  intro heq
  have hd : (requestHashToKey c h).data = (wrapPuid c p).data := congrArg String.data heq
  simp only [requestHashToKey, wrapPuid, String.data_append, List.append_assoc] at hd
  have h1 := List.append_cancel_left hd
  have h2 := List.append_cancel_left h1
  have h3 := List.append_cancel_left h2
  have h4 := List.append_cancel_left h3
  have h5 := List.append_cancel_left h4
  simp at h5

theorem rget_rset_ne (s : Store) (k v : String) (ex : Option Nat) (now now' : Nat)
    (q : String) (hne : q ≠ k) : rget (rset s k v ex now) q now' = rget s q now' := by
  simp [rget, rset, hne]

theorem requestToKey_ne_wrapPuid (c : CacheCtx Req Res) (r : Req) (p : String) :
    requestToKey c r ≠ wrapPuid c p := key_ne_wrapPuid c _ _

theorem rset_ne (s : Store) (k v : String) (ex : Option Nat) (now : Nat)
    (q : String) (hne : q ≠ k) : rset s k v ex now q = s q := by
  simp [rset, hne]

theorem rexpire_ne (s : Store) (k : String) (ex : Nat) (now : Nat)
    (q : String) (hne : q ≠ k) : rexpire s k ex now q = s q := by
  unfold rexpire
  cases hsk : s k with
  | none => rfl
  | some e =>
      by_cases hl : liveEntry e now
      · simp [hl, hne]
      · simp [hl]

/-! ### Lemmas about `msetVal` and `pyDict` -/

theorem msetVal_cons (k v : String) (rest : List (String × String)) (q : String) :
    msetVal ((k, v) :: rest) q =
      match msetVal rest q with
      | some v2 => some v2
      | none => if q = k then some v else none := rfl

theorem msetVal_append (A B : List (String × String)) (q : String) :
    msetVal (A ++ B) q =
      match msetVal B q with
      | some v => some v
      | none => msetVal A q := by
  induction A with
  | nil =>
      simp only [List.nil_append, msetVal]
      cases msetVal B q <;> rfl
  | cons hd tl ih =>
      obtain ⟨k, v⟩ := hd
      rw [List.cons_append, msetVal_cons, ih, msetVal_cons]
      cases msetVal B q <;> cases msetVal tl q <;> rfl

theorem msetVal_eq_none_iff (L : List (String × String)) (q : String) :
    msetVal L q = none ↔ q ∉ L.map (fun p => p.1) := by
  induction L with
  | nil => simp [msetVal]
  | cons hd tl ih =>
      obtain ⟨k, v⟩ := hd
      rw [msetVal_cons]
      by_cases hq : q = k
      · subst hq
        cases htl : msetVal tl q with
        | some w => simp [htl, ih.symm]
        | none => simp [htl]
      · cases htl : msetVal tl q with
        | some w =>
            have hmem : q ∈ tl.map (fun p => p.1) := by
              by_contra hc
              rw [ih.mpr hc] at htl
              cases htl
            simp [htl, hq, hmem]
        | none => simp [htl, hq, ih.mp htl]

theorem msetVal_mapReplace (tl : List (String × String)) (k v q : String)
    (hmem : (tl.any fun p => decide (p.1 = k)) = true) :
    msetVal (tl.map (fun p => if p.1 = k then (k, v) else p)) q =
      if q = k then some v else msetVal tl q := by
  induction tl with
  | nil => simp at hmem
  | cons hd tl ih =>
      obtain ⟨k1, v1⟩ := hd
      by_cases hk1 : k1 = k
      · subst hk1
        have hh : (if (k1, v1).1 = k1 then (k1, v) else (k1, v1)) = (k1, v) := by simp
        rw [List.map_cons, hh, msetVal_cons, msetVal_cons]
        by_cases htl : (tl.any fun p => decide (p.1 = k1)) = true
        · rw [ih htl]
          by_cases hq : q = k1
          · simp [hq]
          · cases msetVal tl q <;> simp [hq]
        · have hmap : tl.map (fun p : String × String => if p.1 = k1 then (k1, v) else p) =
              tl := by
            have := List.map_congr_left (l := tl)
              (f := fun p : String × String => if p.1 = k1 then (k1, v) else p) (g := id)
              (fun a ha => by
                have hne : ¬ a.1 = k1 := by
                  intro hcontra
                  exact htl (List.any_eq_true.mpr ⟨a, ha, by simp [hcontra]⟩)
                simp [hne])
            rw [this, List.map_id]
          rw [hmap]
          by_cases hq : q = k1
          · subst hq
            have hnone : msetVal tl q = none := by
              rw [msetVal_eq_none_iff]
              intro hm
              rcases List.mem_map.mp hm with ⟨p0, hp0, hpq⟩
              exact htl (List.any_eq_true.mpr ⟨p0, hp0, by simp [hpq]⟩)
            simp [hnone]
          · cases msetVal tl q <;> simp [hq]
      · have hh : (if (k1, v1).1 = k then (k, v) else (k1, v1)) = (k1, v1) := by simp [hk1]
        have hmem' : (tl.any fun p => decide (p.1 = k)) = true := by
          simp only [List.any_cons] at hmem
          rcases Bool.or_eq_true_iff.mp hmem with h1 | h2
          · exact absurd (of_decide_eq_true h1) hk1
          · exact h2
        rw [List.map_cons, hh, msetVal_cons, msetVal_cons, ih hmem']
        by_cases hq : q = k
        · have hqk1 : ¬ q = k1 := by rw [hq]; intro hc; exact hk1 hc.symm
          simp [hq]
        · cases msetVal tl q <;> simp [hq]

theorem msetVal_pyDictInsert (d : List (String × String)) (k v q : String) :
    msetVal (pyDictInsert d k v) q = if q = k then some v else msetVal d q := by
  unfold pyDictInsert
  by_cases hany : (d.any fun p => decide (p.1 = k)) = true
  · rw [if_pos hany]
    exact msetVal_mapReplace d k v q hany
  · rw [if_neg hany, msetVal_append]
    by_cases hq : q = k
    · simp [msetVal, hq]
    · simp [msetVal, hq]

theorem msetVal_pyDictFold (L : List (String × String)) (d : List (String × String))
    (q : String) :
    msetVal (L.foldl (fun d p => pyDictInsert d p.1 p.2) d) q =
      match msetVal L q with
      | some v => some v
      | none => msetVal d q := by
  induction L generalizing d with
  | nil => rfl
  | cons hd tl ih =>
      obtain ⟨k, v⟩ := hd
      simp only [List.foldl_cons, ih, msetVal, msetVal_pyDictInsert]
      cases msetVal tl q with
      | some w => rfl
      | none =>
          by_cases hqk : q = k <;> simp [hqk]

theorem msetVal_pyDict (L : List (String × String)) (q : String) :
    msetVal (pyDict L) q = msetVal L q := by
  unfold pyDict
  rw [msetVal_pyDictFold]
  cases msetVal L q <;> rfl

theorem mem_keys_pyDictInsert (d : List (String × String)) (k v : String) (q : String)
    (hq : q ∈ (pyDictInsert d k v).map (fun p => p.1)) :
    q ∈ d.map (fun p => p.1) ∨ q = k := by
  unfold pyDictInsert at hq
  by_cases hany : (d.any fun p => decide (p.1 = k)) = true
  · rw [if_pos hany] at hq
    rcases List.mem_map.mp hq with ⟨p, hp, hpq⟩
    rcases List.mem_map.mp hp with ⟨p0, hp0, hp0p⟩
    by_cases hpk : p0.1 = k
    · right; rw [← hpq, ← hp0p]; simp [hpk]
    · left
      rw [← hpq, ← hp0p]
      have hid : (if p0.1 = k then (k, v) else p0) = p0 := by simp [hpk]
      rw [hid]
      exact List.mem_map.mpr ⟨p0, hp0, rfl⟩
  · rw [if_neg hany] at hq
    simp only [List.map_append, List.mem_append, List.map_cons, List.map_nil,
      List.mem_cons] at hq
    rcases hq with h1 | h2
    · left; exact h1
    · right; simpa using h2

theorem mem_keys_pyDictFold (L : List (String × String)) (d : List (String × String))
    (q : String) (hq : q ∈ (L.foldl (fun d p => pyDictInsert d p.1 p.2) d).map (fun p => p.1)) :
    q ∈ d.map (fun p => p.1) ∨ q ∈ L.map (fun p => p.1) := by
  induction L generalizing d with
  | nil => left; exact hq
  | cons hd tl ih =>
      obtain ⟨k, v⟩ := hd
      simp only [List.foldl_cons] at hq
      rcases ih (pyDictInsert d k v) hq with h1 | h2
      · rcases mem_keys_pyDictInsert d k v q h1 with ha | hb
        · left; exact ha
        · right; simp [hb]
      · right; simp [h2]

theorem mem_keys_pyDict (L : List (String × String)) (q : String)
    (hq : q ∈ (pyDict L).map (fun p => p.1)) : q ∈ L.map (fun p => p.1) := by
  rcases mem_keys_pyDictFold L [] q hq with h1 | h2
  · simp at h1
  · exact h2

/-! ### Lemmas about `expireAll` and `batchSetCore` -/

theorem expireAll_notmem (s : Store) (ks : List String) (ex : Nat) (now : Nat)
    (q : String) (hq : q ∉ ks) : expireAll s ks ex now q = s q := by
  induction ks generalizing s with
  | nil => rfl
  | cons k tl ih =>
      have hqk : q ≠ k := fun hc => hq (by simp [hc])
      have hqtl : q ∉ tl := fun hc => hq (by simp [hc])
      show expireAll (rexpire s k ex now) tl ex now q = s q
      rw [ih _ hqtl, rexpire_ne s k ex now q hqk]

theorem expireAll_refresh (ks : List String) (s : Store) (ex now : Nat)
    (q : String) (v : String)
    (hval : s q = some ⟨v, none⟩ ∨ s q = some ⟨v, some (now + ex)⟩)
    (hin : q ∈ ks ∨ s q = some ⟨v, some (now + ex)⟩) :
    expireAll s ks ex now q = some ⟨v, some (now + ex)⟩ := by
  induction ks generalizing s with
  | nil =>
      rcases hin with h | h
      · simp at h
      · exact h
  | cons k tl ih =>
      show expireAll (rexpire s k ex now) tl ex now q = _
      by_cases hqk : q = k
      · subst hqk
        have hrq : rexpire s q ex now q = some ⟨v, some (now + ex)⟩ := by
          rcases hval with h | h
          · unfold rexpire
            rw [h]
            simp [liveEntry]
          · unfold rexpire
            rw [h]
            by_cases hl : liveEntry ⟨v, some (now + ex)⟩ now = true
            · simp [hl]
            · simp [hl, h]
        exact ih (rexpire s q ex now) (Or.inr hrq) (Or.inr hrq)
      · have hrq : rexpire s k ex now q = s q := rexpire_ne s k ex now q hqk
        apply ih
        · rw [hrq]; exact hval
        · rcases hin with h | h
          · rcases List.mem_cons.mp h with h1 | h2
            · exact absurd h1 hqk
            · exact Or.inl h2
          · right; rw [hrq]; exact h

theorem triplePairs_fst (c : CacheCtx Req Res) (ts : List (Req × Res × Meta)) :
    (triplePairs c ts).map (fun p => p.1) = puidsOf c ts ++ keysOf c ts := by
  unfold triplePairs
  rw [List.map_append]
  have h1 : ((puidsOf c ts).zip (keysOf c ts)).map (fun p : String × String => p.1) =
      puidsOf c ts := List.map_fst_zip _ _ (by simp [puidsOf, keysOf])
  have h2 : ((keysOf c ts).zip (valsOf c ts)).map (fun p : String × String => p.1) =
      keysOf c ts := List.map_fst_zip _ _ (by simp [keysOf, valsOf])
  rw [h1, h2]

/-- Pointwise description of the store `set_responses` produces: every
key bound by the merged dict carries its last-wins value with TTL
`now + expirationDelta`; every other key is untouched. -/
theorem batchSetCore_char (c : CacheCtx Req Res) (s : Store) (now : Nat)
    (ts : List (Req × Res × Meta)) (q : String) :
    batchSetCore c s now ts q =
      match msetVal (triplePairs c ts) q with
      | some v => some ⟨v, some (now + c.expirationDelta)⟩
      | none => s q := by
  unfold batchSetCore
  cases hmv : msetVal (triplePairs c ts) q with
  | none =>
      have hq1 : rmset s (pyDict (triplePairs c ts)) q = s q := by
        unfold rmset
        rw [msetVal_pyDict, hmv]
      have hnotin : q ∉ keysOf c ts ++ puidsOf c ts := by
        intro hmem
        rw [msetVal_eq_none_iff, triplePairs_fst] at hmv
        rcases List.mem_append.mp hmem with h | h
        · exact hmv (List.mem_append.mpr (Or.inr h))
        · exact hmv (List.mem_append.mpr (Or.inl h))
      rw [expireAll_notmem _ _ _ _ _ hnotin, hq1]
  | some v =>
      have hq1 : rmset s (pyDict (triplePairs c ts)) q = some ⟨v, none⟩ := by
        unfold rmset
        rw [msetVal_pyDict, hmv]
      have hin : q ∈ keysOf c ts ++ puidsOf c ts := by
        have hmem : q ∈ (triplePairs c ts).map (fun p => p.1) := by
          by_contra hc
          rw [← msetVal_eq_none_iff] at hc
          rw [hc] at hmv
          cases hmv
        rw [triplePairs_fst] at hmem
        rcases List.mem_append.mp hmem with h | h
        · exact List.mem_append.mpr (Or.inr h)
        · exact List.mem_append.mpr (Or.inl h)
      exact expireAll_refresh _ _ _ _ _ _ (Or.inl hq1) (Or.inl hin)

/-- The batched write for `t :: ts` equals the batched write for `ts`
over the store obtained by writing `t`'s index and content entries
singly, which is the key step relating `set_responses` to iterated
`set_response`. -/
theorem batchSetCore_cons (c : CacheCtx Req Res) (s : Store) (now : Nat)
    (r : Req) (x : Res) (m : Meta) (ts : List (Req × Res × Meta)) (q : String) :
    batchSetCore c s now ((r, x, m) :: ts) q =
      batchSetCore c
        (rset (rset s (wrapPuid c m.puid) (requestToKey c r) (some c.expirationDelta) now)
          (requestToKey c r) (c.serializeCV ⟨r, x, m⟩) (some c.expirationDelta) now)
        now ts q := by
  rw [batchSetCore_char, batchSetCore_char]
  have hkwp : requestToKey c r ≠ wrapPuid c m.puid := key_ne_wrapPuid c _ _
  have hTP : triplePairs c ((r, x, m) :: ts) =
      ((wrapPuid c m.puid, requestToKey c r) :: (puidsOf c ts).zip (keysOf c ts)) ++
        ((requestToKey c r, c.serializeCV ⟨r, x, m⟩) :: (keysOf c ts).zip (valsOf c ts)) := by
    simp [triplePairs, puidsOf, keysOf, valsOf]
  have hTP0 : triplePairs c ts =
      (puidsOf c ts).zip (keysOf c ts) ++ (keysOf c ts).zip (valsOf c ts) := rfl
  have hA0k : msetVal ((puidsOf c ts).zip (keysOf c ts)) (requestToKey c r) = none := by
    rw [msetVal_eq_none_iff]
    intro hmem
    have hfst : ((puidsOf c ts).zip (keysOf c ts)).map (fun p : String × String => p.1) =
        puidsOf c ts := List.map_fst_zip _ _ (by simp [puidsOf, keysOf])
    rw [hfst] at hmem
    rcases List.mem_map.mp hmem with ⟨t, _, htq⟩
    exact key_ne_wrapPuid c _ _ htq.symm
  rw [hTP, hTP0, msetVal_append, msetVal_append, msetVal_cons, msetVal_cons]
  cases hB0 : msetVal ((keysOf c ts).zip (valsOf c ts)) q with
  | some w => rfl
  | none =>
      by_cases hqk : q = requestToKey c r
      · subst hqk
        rw [hA0k]
        simp [rset]
      · rw [if_neg hqk]
        cases hA0 : msetVal ((puidsOf c ts).zip (keysOf c ts)) q with
        | some w => rfl
        | none =>
            by_cases hqwp : q = wrapPuid c m.puid
            · subst hqwp
              simp [rset, hqk, hkwp]
            · simp [rset, hqk, hqwp]

/-- Iterated `set_response` over a triple list produces, pointwise, the
same store as the batched write over the policy-accepted subset. -/
theorem seqSet_eq_batch (c : CacheCtx Req Res) (now : Nat)
    (hav : c.redisAvailable = true) (ts : List (Req × Res × Meta)) (s : Store)
    (q : String) :
    seqSet c s now ts q =
      batchSetCore c s now (ts.filter (fun t => should_cache c t.1 t.2.1 t.2.2)) q := by
  induction ts generalizing s with
  | nil =>
      show s q = _
      rw [batchSetCore_char]
      rfl
  | cons t ts ih =>
      obtain ⟨r, x, m⟩ := t
      by_cases hsc : should_cache c r x m = true
      · rw [List.filter_cons_of_pos (by simpa using hsc)]
        show seqSet c (set_response c s now r x m) now ts q = _
        rw [ih]
        have hsr : set_response c s now r x m =
            rset (rset s (wrapPuid c m.puid) (requestToKey c r) (some c.expirationDelta) now)
              (requestToKey c r) (c.serializeCV ⟨r, x, m⟩) (some c.expirationDelta) now := by
          simp [set_response, hav, hsc]
        rw [hsr, ← batchSetCore_cons]
      · rw [List.filter_cons_of_neg (by simpa using hsc)]
        show seqSet c (set_response c s now r x m) now ts q = _
        have hsr : set_response c s now r x m = s := by
          simp [set_response, hav, hsc]
        rw [hsr, ih]

theorem zip_proj_eq (ts : List (Req × Res × Meta)) :
    (ts.map (fun t => t.1)).zip ((ts.map (fun t => t.2.1)).zip (ts.map (fun t => t.2.2))) =
      ts := by
  induction ts with
  | nil => rfl
  | cons t ts ih =>
      obtain ⟨r, x, m⟩ := t
      simp [ih]

/-- With the store available and at least one accepted triple,
`set_responses` succeeds and its store equals the one produced by
calling `set_response` item by item. -/
theorem set_responses_eq_seqSet (c : CacheCtx Req Res) (s : Store) (now : Nat)
    (ts : List (Req × Res × Meta)) (hav : c.redisAvailable = true)
    (hne : ts.filter (fun t => should_cache c t.1 t.2.1 t.2.2) ≠ []) :
    set_responses c s now (ts.map (fun t => t.1)) (ts.map (fun t => t.2.1))
      (ts.map (fun t => t.2.2)) = .ok (seqSet c s now ts) := by
  have hAT : acceptedTriples c (ts.map (fun t => t.1)) (ts.map (fun t => t.2.1))
      (ts.map (fun t => t.2.2)) = ts.filter (fun t => should_cache c t.1 t.2.1 t.2.2) := by
    unfold acceptedTriples
    rw [zip_proj_eq]
  have hisEmpty : (ts.filter (fun t => should_cache c t.1 t.2.1 t.2.2)).isEmpty = false := by
    cases hF : ts.filter (fun t => should_cache c t.1 t.2.1 t.2.2) with
    | nil => exact absurd hF hne
    | cons a l => rfl
  simp only [set_responses, hav, hAT, hisEmpty, if_true, Bool.false_eq_true, if_false]
  refine congrArg Except.ok ?_
  funext q
  exact (seqSet_eq_batch c now hav ts s q).symm

/-- Item-by-item `get_response` returns, positionally, exactly the
parses of the raw reads against the starting store: the index writes a
hit performs never touch any content key, so later reads are unaffected. -/
theorem seqGet_vals (c : CacheCtx Req Res) (now : Nat)
    (hav : c.redisAvailable = true) (S : Store) (prs : List (String × Req)) :
    ∀ S' : Store,
      (∀ pr ∈ prs, rget S' (requestToKey c pr.2) now = rget S (requestToKey c pr.2) now) →
      Except.map Prod.fst (seqGet c S' now prs) =
        parseResponses c (prs.map (fun pr => rget S (requestToKey c pr.2) now)) := by
  induction prs with
  | nil =>
      intro S' _
      rfl
  | cons pr prs ih =>
      intro S' hag
      obtain ⟨p, r⟩ := pr
      have hhead : rget S' (requestToKey c r) now = rget S (requestToKey c r) now :=
        hag (p, r) (List.mem_cons_self _ _)
      have htail0 : ∀ pr' ∈ prs,
          rget S' (requestToKey c pr'.2) now = rget S (requestToKey c pr'.2) now :=
        fun pr' hm => hag pr' (List.mem_cons_of_mem _ hm)
      have hstep : ∀ (res : Except String (List (Option Res))) (s0 : Store) (o : Option Res),
          Except.map Prod.fst (seqGet c s0 now prs) = res →
          Except.map Prod.fst
            (match seqGet c s0 now prs with
              | .error e => .error e
              | .ok (vs, s2) => (.ok (o :: vs, s2) :
                  Except String (List (Option Res) × Store))) =
            res.map (fun rest => o :: rest) := by
        intro res s0 o hres
        cases hsg : seqGet c s0 now prs with
        | error e => rw [hsg] at hres; rw [← hres]; rfl
        | ok pr2 => rw [hsg] at hres; rw [← hres]; rfl
      simp only [List.map_cons]
      cases hS : rget S (requestToKey c r) now with
      | none =>
          have hgr : get_response c S' now p r = .ok (none, S') := by
            simp [get_response, hav, hhead, hS]
          have hPR : parseResponses c
              ((none : Option String) ::
                prs.map (fun pr => rget S (requestToKey c pr.2) now)) =
              (parseResponses c (prs.map (fun pr => rget S (requestToKey c pr.2) now))).map
                (fun rest => (none : Option Res) :: rest) := by
            simp [parseResponses, parseOne]
          show Except.map Prod.fst
              (match get_response c S' now p r with
                | .error e => .error e
                | .ok (v, s1) =>
                    match seqGet c s1 now prs with
                    | .error e => .error e
                    | .ok (vs, s2) => .ok (v :: vs, s2)) = _
          rw [hgr, hPR]
          exact hstep _ S' none (ih S' htail0)
      | some v =>
          by_cases hv : v = ""
          · have hgr : get_response c S' now p r = .ok (none, S') := by
              simp [get_response, hav, hhead, hS, hv]
            have hPR : parseResponses c
                (some v :: prs.map (fun pr => rget S (requestToKey c pr.2) now)) =
                (parseResponses c
                    (prs.map (fun pr => rget S (requestToKey c pr.2) now))).map
                  (fun rest => (none : Option Res) :: rest) := by
              simp [parseResponses, parseOne, hv]
            show Except.map Prod.fst
                (match get_response c S' now p r with
                  | .error e => .error e
                  | .ok (v, s1) =>
                      match seqGet c s1 now prs with
                      | .error e => .error e
                      | .ok (vs, s2) => .ok (v :: vs, s2)) = _
            rw [hgr, hPR]
            exact hstep _ S' none (ih S' htail0)
          · cases hp : c.parseCV v with
            | none =>
                have hgr : get_response c S' now p r = .error "ValidationError" := by
                  simp [get_response, hav, hhead, hS, hv, hp]
                have hPR : parseResponses c
                    (some v :: prs.map (fun pr => rget S (requestToKey c pr.2) now)) =
                    (.error "ValidationError" :
                      Except String (List (Option Res))) := by
                  simp [parseResponses, parseOne, hv, hp]
                show Except.map Prod.fst
                    (match get_response c S' now p r with
                      | .error e => .error e
                      | .ok (v, s1) =>
                          match seqGet c s1 now prs with
                          | .error e => .error e
                          | .ok (vs, s2) => .ok (v :: vs, s2)) = _
                rw [hgr, hPR]
                rfl
            | some cv =>
                have hgr : get_response c S' now p r =
                    .ok (some cv.response,
                      rset S' (wrapPuid c p) (requestToKey c r)
                        (some c.expirationDelta) now) := by
                  simp [get_response, hav, hhead, hS, hv, hp]
                have hPR : parseResponses c
                    (some v :: prs.map (fun pr => rget S (requestToKey c pr.2) now)) =
                    (parseResponses c
                        (prs.map (fun pr => rget S (requestToKey c pr.2) now))).map
                      (fun rest => some cv.response :: rest) := by
                  simp [parseResponses, parseOne, hv, hp]
                have hS2 : ∀ pr' ∈ prs,
                    rget (rset S' (wrapPuid c p) (requestToKey c r)
                        (some c.expirationDelta) now)
                      (requestToKey c pr'.2) now = rget S (requestToKey c pr'.2) now := by
                  intro pr' hm
                  exact (rget_rset_ne _ _ _ _ _ _ _
                    (requestToKey_ne_wrapPuid c pr'.2 p)).trans (htail0 pr' hm)
                show Except.map Prod.fst
                    (match get_response c S' now p r with
                      | .error e => .error e
                      | .ok (v, s1) =>
                          match seqGet c s1 now prs with
                          | .error e => .error e
                          | .ok (vs, s2) => .ok (v :: vs, s2)) = _
                rw [hgr, hPR]
                exact hstep _ _ (some cv.response) (ih _ hS2)

/-- `get_responses` with the store available, with its `let` bindings
flattened. -/
theorem get_responses_eq (c : CacheCtx Req Res) (s : Store) (now : Nat)
    (ps : List String) (rs : List Req) (hav : c.redisAvailable = true) :
    get_responses c s now ps rs =
      match parseResponses c ((rs.map (requestToKey c)).map (fun k => rget s k now)) with
      | .error e => .error e
      | .ok responses =>
          if (pyDict ((((ps.map (wrapPuid c)).zip
                ((rs.map (requestToKey c)).zip responses)).filter
                  (fun t => t.2.2.isSome)).map (fun t => (t.1, t.2.1)))).isEmpty then
            .ok (responses, s)
          else
            .ok (responses,
              expireAll
                (rmset s (pyDict ((((ps.map (wrapPuid c)).zip
                  ((rs.map (requestToKey c)).zip responses)).filter
                    (fun t => t.2.2.isSome)).map (fun t => (t.1, t.2.1)))))
                ((pyDict ((((ps.map (wrapPuid c)).zip
                  ((rs.map (requestToKey c)).zip responses)).filter
                    (fun t => t.2.2.isSome)).map (fun t => (t.1, t.2.1)))).map
                  (fun p => p.1))
                c.expirationDelta now) := by
  unfold get_responses
  rw [if_pos hav]

/-- The raw reads of the batched read, expressed per request. -/
theorem rawReads_eq (c : CacheCtx Req Res) (s : Store) (now : Nat) (rs : List Req) :
    (rs.map (requestToKey c)).map (fun k => rget s k now) =
      rs.map (fun r => rget s (requestToKey c r) now) := by
  rw [List.map_map]
  rfl

theorem map_fst_ok_ite (vs : List (Option Res)) (b : Bool) (s1 s2 : Store) :
    Except.map Prod.fst ((if b = true then Except.ok (vs, s1) else Except.ok (vs, s2)) :
      Except String (List (Option Res) × Store)) = .ok vs := by
  cases b <;> rfl

theorem ok_ite_inv (vs vals : List (Option Res)) (b : Bool) (s1 s2 s' : Store)
    (h : ((if b = true then Except.ok (vs, s1) else Except.ok (vs, s2)) :
      Except String (List (Option Res) × Store)) = .ok (vals, s')) :
    vals = vs ∧ (s' = s1 ∨ s' = s2) := by
  cases b <;> simp_all

theorem ok_ite_inv2 (vs vals : List (Option Res)) (b : Bool) (s1 s2 s' : Store)
    (h : ((if b = true then Except.ok (vs, s1) else Except.ok (vs, s2)) :
      Except String (List (Option Res) × Store)) = .ok (vals, s')) :
    vals = vs ∧ ((b = true ∧ s' = s1) ∨ (b = false ∧ s' = s2)) := by
  cases b <;> simp_all

/-- On success the batched read returns one slot per request. -/
theorem parseResponses_length (c : CacheCtx Req Res) (vs : List (Option String))
    (rs : List (Option Res)) (h : parseResponses c vs = .ok rs) :
    rs.length = vs.length := by
  induction vs generalizing rs with
  | nil =>
      unfold parseResponses at h
      cases h
      rfl
  | cons v vs ih =>
      unfold parseResponses at h
      cases hp : parseOne c v with
      | error e => rw [hp] at h; cases h
      | ok r =>
          rw [hp] at h
          cases hrest : parseResponses c vs with
          | error e => rw [hrest] at h; cases h
          | ok rest =>
              rw [hrest] at h
              cases h
              simp [ih rest hrest]

theorem get_responses_vals (c : CacheCtx Req Res) (s : Store) (now : Nat)
    (ps : List String) (rs : List Req) (hav : c.redisAvailable = true) :
    Except.map Prod.fst (get_responses c s now ps rs) =
      parseResponses c (rs.map (fun r => rget s (requestToKey c r) now)) := by
  rw [get_responses_eq c s now ps rs hav, rawReads_eq]
  cases hpr : parseResponses c (rs.map (fun r => rget s (requestToKey c r) now)) with
  | error e => rfl
  | ok responses => exact map_fst_ok_ite responses _ _ _

theorem get_responses_ok_length (c : CacheCtx Req Res) (s : Store) (now : Nat)
    (ps : List String) (rs : List Req) (vals : List (Option Res)) (s' : Store)
    (hok : get_responses c s now ps rs = .ok (vals, s')) : vals.length = rs.length := by
  by_cases hav : c.redisAvailable = true
  · have h := get_responses_vals c s now ps rs hav
    rw [hok] at h
    have hlen := parseResponses_length c _ _ h.symm
    simpa using hlen
  · unfold get_responses at hok
    rw [if_neg hav] at hok
    simp only [Except.ok.injEq, Prod.mk.injEq] at hok
    rw [← hok.1]
    simp

/-- Any key the batched read modifies is an index key; in particular
every content entry (value and TTL alike) is untouched. -/
theorem get_responses_content_untouched (c : CacheCtx Req Res) (s : Store) (now : Nat)
    (ps : List String) (rs : List Req) (vals : List (Option Res)) (s' : Store)
    (hok : get_responses c s now ps rs = .ok (vals, s')) (r' : Req) :
    s' (requestToKey c r') = s (requestToKey c r') := by
  by_cases hav : c.redisAvailable = true
  · rw [get_responses_eq c s now ps rs hav, rawReads_eq] at hok
    cases hpr : parseResponses c (rs.map (fun r => rget s (requestToKey c r) now)) with
    | error e => rw [hpr] at hok; cases hok
    | ok responses =>
        rw [hpr] at hok
        rcases ok_ite_inv _ _ _ _ _ _ hok with ⟨_, hs' | hs'⟩
        · rw [hs']
        · rw [hs']
          have hnot : requestToKey c r' ∉ (pyDict ((((ps.map (wrapPuid c)).zip
              ((rs.map (requestToKey c)).zip responses)).filter
                (fun t => t.2.2.isSome)).map (fun t => (t.1, t.2.1)))).map
              (fun p => p.1) := by
            intro hmem
            have hmem2 := mem_keys_pyDict _ _ hmem
            rcases List.mem_map.mp hmem2 with ⟨t, ht, htq⟩
            rcases List.mem_map.mp ht with ⟨t0, ht0, ht0t⟩
            have ht2 := List.mem_filter.mp ht0
            have ht3 := List.of_mem_zip ht2.1
            rcases List.mem_map.mp ht3.1 with ⟨p0, _, hp0⟩
            rw [← ht0t] at htq
            rw [← hp0] at htq
            exact requestToKey_ne_wrapPuid c r' p0 htq.symm
          rw [expireAll_notmem _ _ _ _ _ hnot]
          unfold rmset
          rw [(msetVal_eq_none_iff _ _).mpr hnot]
  · unfold get_responses at hok
    rw [if_neg hav] at hok
    simp only [Except.ok.injEq, Prod.mk.injEq] at hok
    rw [← hok.2]

/-! ### Lemmas about the partial-batch merge -/

/-- Full specification of the merge loop: when the computed list covers
exactly the miss count, the merge succeeds, preserves length, keeps
every hit at its index, and fills the miss positions with the computed
responses in order. -/
theorem mergeLoop_spec (resp : List (Option Res)) (fresh : List Res)
    (hlen : fresh.length = resp.countP (fun o => o.isNone)) :
    ∃ out, mergeLoop resp fresh = some out ∧ out.length = resp.length ∧
      ((resp.zip out).filter (fun pr => pr.1.isNone)).map (fun pr => pr.2) =
        fresh.map some ∧
      (∀ (i : Nat) (v : Res), resp[i]? = some (some v) → out[i]? = some (some v)) := by
  induction resp generalizing fresh with
  | nil =>
      have hf : fresh = [] := List.length_eq_zero.mp (by simpa using hlen)
      subst hf
      exact ⟨[], rfl, rfl, rfl, fun i v h => by cases h⟩
  | cons o rest ih =>
      cases o with
      | none =>
          cases fresh with
          | nil => simp [List.countP_cons] at hlen
          | cons f fs =>
              have hlen' : fs.length = rest.countP (fun o => o.isNone) := by
                simp [List.countP_cons] at hlen
                omega
              rcases ih fs hlen' with ⟨out, hml, hol, hfill, hkeep⟩
              refine ⟨some f :: out, ?_, by simp [hol], ?_, ?_⟩
              · show (mergeLoop rest fs).map (fun out => some f :: out) = _
                rw [hml]
                rfl
              · simp [List.filter_cons, hfill]
              · intro i v hv
                cases i with
                | zero => simp at hv
                | succ j =>
                    simp only [List.getElem?_cons_succ] at hv ⊢
                    exact hkeep j v hv
      | some r =>
          have hlen' : fresh.length = rest.countP (fun o => o.isNone) := by
            simpa [List.countP_cons] using hlen
          rcases ih fresh hlen' with ⟨out, hml, hol, hfill, hkeep⟩
          refine ⟨some r :: out, ?_, by simp [hol], ?_, ?_⟩
          · show (mergeLoop rest fresh).map (fun out => some r :: out) = _
            rw [hml]
            rfl
          · simp [List.filter_cons, hfill]
          · intro i v hv
            cases i with
            | zero =>
                simp only [List.getElem?_cons_zero, Option.some.injEq] at hv ⊢
                exact hv
            | succ j =>
                simp only [List.getElem?_cons_succ] at hv ⊢
                exact hkeep j v hv

/-- A content key is never an empty (falsy) string. -/
theorem requestHashToKey_ne_empty (c : CacheCtx Req Res) (h : String) :
    requestHashToKey c h ≠ "" := by
  intro heq
  have hd := congrArg String.data heq
  simp [requestHashToKey, String.data_append] at hd

theorem requestToKey_ne_empty (c : CacheCtx Req Res) (r : Req) :
    requestToKey c r ≠ "" := requestHashToKey_ne_empty c _

theorem tagsGet_append (A B : List (String × String)) (q : String) :
    tagsGet (A ++ B) q =
      match tagsGet A q with
      | some v => some v
      | none => tagsGet B q := by
  induction A with
  | nil => rfl
  | cons hd tl ih =>
      obtain ⟨k, v⟩ := hd
      show (if q = k then some v else tagsGet (tl ++ B) q) = _
      by_cases hq : q = k
      · simp [tagsGet, hq]
      · simp only [if_neg hq, ih]
        simp [tagsGet, hq]

/-- With the store unavailable, iterated `set_response` is the identity. -/
theorem seqSet_off (c : CacheCtx Req Res) (now : Nat)
    (hoff : c.redisAvailable = false) (ts : List (Req × Res × Meta)) (s : Store) :
    seqSet c s now ts = s := by
  induction ts generalizing s with
  | nil => rfl
  | cons t ts ih =>
      obtain ⟨r, x, m⟩ := t
      show seqSet c (set_response c s now r x m) now ts = s
      rw [show set_response c s now r x m = s by simp [set_response, hoff], ih]

/-- With the store unavailable, iterated `get_response` returns all-miss
and leaves the store alone. -/
theorem seqGet_off (c : CacheCtx Req Res) (now : Nat)
    (hoff : c.redisAvailable = false) (prs : List (String × Req)) (s : Store) :
    seqGet c s now prs = .ok (List.replicate prs.length none, s) := by
  induction prs with
  | nil => rfl
  | cons pr prs ih =>
      obtain ⟨p, r⟩ := pr
      have hgo : get_response c s now p r = .ok (none, s) := by simp [get_response, hoff]
      simp [seqGet, hgo, ih, List.replicate_succ]

/-- The number of miss positions equals the `None` count of the
response list, provided the zipped lists have equal length. -/
theorem zip_filter_none_length {α : Type} (l1 : List α) (l2 : List (Option Res))
    (hlen : l1.length = l2.length) :
    ((l1.zip l2).filter (fun p => p.2.isNone)).length =
      l2.countP (fun o => o.isNone) := by
  induction l1 generalizing l2 with
  | nil =>
      have : l2 = [] := List.length_eq_zero.mp (by simpa using hlen.symm)
      subst this
      rfl
  | cons a l1 ih =>
      cases l2 with
      | nil => cases hlen
      | cons o l2 =>
          have hlen' : l1.length = l2.length := by simpa using hlen
          cases o with
          | none => simp [List.countP_cons, ih l2 hlen']
          | some b => simp [List.countP_cons, ih l2 hlen']

/-- Variant of the previous lemma for a list zipped with itself and the
predicate reading the first component. -/
theorem zip_self_filter_fst_none_length (l : List (Option Res)) :
    ((l.zip l).filter (fun pr => pr.1.isNone)).length =
      l.countP (fun o => o.isNone) := by
  induction l with
  | nil => rfl
  | cons o rest ih =>
      cases o with
      | none => simp [List.countP_cons, ih]
      | some b => simp [List.countP_cons, ih]

/-! ### Claim theorems -/

/-- C1: for every request `r`, response `x`, and metadata `m` such that
`should_cache r x m` holds and the store is available (with a positive
TTL, a pydantic round trip on the stored value, and a non-empty
serialization, all properties of the real environment), `set_response r
x m` followed by `get_response m.puid r` returns `x`. -/
theorem C1_set_then_get_round_trip (c : CacheCtx Req Res) (s : Store) (now : Nat)
    (r : Req) (x : Res) (m : Meta)
    (hav : c.redisAvailable = true)
    (hsc : should_cache c r x m = true)
    (hpos : 0 < c.expirationDelta)
    (hser : c.serializeCV ⟨r, x, m⟩ ≠ "")
    (hparse : c.parseCV (c.serializeCV ⟨r, x, m⟩) = some ⟨r, x, m⟩) :
    Except.map Prod.fst (get_response c (set_response c s now r x m) now m.puid r) =
      .ok (some x) := by
  have hlt : now < now + c.expirationDelta := Nat.lt_add_of_pos_right hpos
  have hset : set_response c s now r x m =
      rset (rset s (wrapPuid c m.puid) (requestToKey c r) (some c.expirationDelta) now)
        (requestToKey c r) (c.serializeCV ⟨r, x, m⟩) (some c.expirationDelta) now := by
    simp [set_response, hav, hsc]
  have hget : rget (set_response c s now r x m) (requestToKey c r) now =
      some (c.serializeCV ⟨r, x, m⟩) := by
    rw [hset]
    simp [rget, rset, liveEntry, hlt]
  simp [get_response, hav, hget, hser, hparse]
  rfl

theorem C1_witness :
    should_cache ctxSample 0 7 metaGood = true ∧
    Except.map Prod.fst (get_response ctxSample
        (set_response ctxSample emptyStore 0 0 7 metaGood) 0 metaGood.puid 0) =
      .ok (some 7) :=
  ⟨by decide,
    C1_set_then_get_round_trip ctxSample emptyStore 0 0 7 metaGood rfl (by decide)
      (by decide) (by decide) rfl⟩

/-- C7: if `should_cache` is false, `set_response` leaves the store
completely unchanged, and a `get_response` on a store with no prior
entry for `r` returns absent, also after the no-op write. -/
theorem C7_policy_exclusion_noop (c : CacheCtx Req Res) (s : Store) (now : Nat)
    (r : Req) (x : Res) (m : Meta)
    (hsc : should_cache c r x m = false) :
    set_response c s now r x m = s ∧
    (∀ anyId : String, s (requestToKey c r) = none →
      get_response c s now anyId r = .ok (none, s)) ∧
    (∀ anyId : String, s (requestToKey c r) = none →
      get_response c (set_response c s now r x m) now anyId r = .ok (none, s)) := by
  have h1 : set_response c s now r x m = s := by
    simp [set_response, hsc]
  have h2 : ∀ anyId : String, s (requestToKey c r) = none →
      get_response c s now anyId r = .ok (none, s) := by
    intro anyId hempty
    have hr : rget s (requestToKey c r) now = none := by
      unfold rget
      rw [hempty]
    by_cases hav : c.redisAvailable = true
    · simp [get_response, hav, hr]
    · simp [get_response, hav]
  exact ⟨h1, h2, fun anyId hempty => by rw [h1]; exact h2 anyId hempty⟩

theorem C7_witness :
    should_cache ctxSample 0 7 metaBad = false ∧
    set_response ctxSample emptyStore 0 0 7 metaBad = emptyStore ∧
    get_response ctxSample (set_response ctxSample emptyStore 0 0 7 metaBad) 0 "z" 0 =
      .ok (none, emptyStore) := by
  have h := C7_policy_exclusion_noop ctxSample emptyStore 0 0 7 metaBad (by decide)
  exact ⟨by decide, h.1, h.2.2 "z" rfl⟩

/-- C8: when the Redis client is absent, every operation degrades
without raising: the writes are no-ops, the single reads return absent,
and the batched read returns one absent slot per request. -/
theorem C8_degraded_mode (c : CacheCtx Req Res) (hoff : c.redisAvailable = false) :
    (∀ (s : Store) (now : Nat) (r : Req) (x : Res) (m : Meta),
      set_response c s now r x m = s) ∧
    (∀ (s : Store) (now : Nat) (requests : List Req) (responses : List Res)
      (metas : List Meta),
      set_responses c s now requests responses metas = .ok s) ∧
    (∀ (s : Store) (now : Nat) (p : String) (r : Req),
      get_response c s now p r = .ok (none, s)) ∧
    (∀ (s : Store) (now : Nat) (ps : List String) (rs : List Req),
      get_responses c s now ps rs = .ok (List.replicate rs.length none, s)) ∧
    (∀ (s : Store) (now : Nat) (p : String),
      get_cache_value c s now p = .ok none) := by
  refine ⟨?_, ?_, ?_, ?_, ?_⟩
  · intro s now r x m
    simp [set_response, hoff]
  · intro s now requests responses metas
    simp [set_responses, hoff]
  · intro s now p r
    simp [get_response, hoff]
  · intro s now ps rs
    simp [get_responses, hoff]
  · intro s now p
    simp [get_cache_value, hoff]

theorem C8_witness :
    ctxOff.redisAvailable = false ∧
    set_response ctxOff emptyStore 0 0 7 metaGood = emptyStore ∧
    set_responses ctxOff emptyStore 0 [0] [7] [metaGood] = .ok emptyStore ∧
    get_response ctxOff emptyStore 0 "p" 0 = .ok (none, emptyStore) ∧
    get_responses ctxOff emptyStore 0 ["p"] [0] = .ok ([none], emptyStore) ∧
    get_cache_value ctxOff emptyStore 0 "p" = .ok none := by
  have h := C8_degraded_mode ctxOff rfl
  exact ⟨rfl, h.1 _ _ _ _ _, h.2.1 _ _ _ _ _, h.2.2.1 _ _ _ _,
    h.2.2.2.1 _ _ _ _, h.2.2.2.2 _ _ _⟩

/-- C9: the content key is exactly the service identity joined with
`:request:` and the digest of the request's serialization, the index
key is the identity joined with `:puid:` and the correlation id, and
keys are pure functions of those inputs: requests with equal
serialization get equal keys. -/
theorem C9_key_formats (c : CacheCtx Req Res) (r r2 : Req) (p : String)
    (hser : c.serializeReq r = c.serializeReq r2) :
    requestToKey c r =
      c.name ++ ":" ++ c.deploymentId ++ ":" ++ c.version ++ ":request:" ++
        c.sha256Hex (c.serializeReq r) ∧
    wrapPuid c p =
      c.name ++ ":" ++ c.deploymentId ++ ":" ++ c.version ++ ":puid:" ++ p ∧
    requestToKey c r = requestToKey c r2 := by
  refine ⟨rfl, rfl, ?_⟩
  unfold requestToKey
  rw [hser]

theorem C9_witness :
    requestToKey ctxSample 0 =
      ctxSample.name ++ ":" ++ ctxSample.deploymentId ++ ":" ++ ctxSample.version ++
        ":request:" ++ ctxSample.sha256Hex (ctxSample.serializeReq 0) ∧
    requestToKey ctxSample 0 = requestToKey ctxSample 0 := by
  have h := C9_key_formats ctxSample 0 0 "p" rfl
  exact ⟨h.1, h.2.2⟩

/-- C10: a `Meta` constructed without an explicit `predictive_unit_id`
tag receives the process id, so `should_cache` accepts it; a value is
rejected exactly when the caller supplied a different id explicitly. -/
theorem C10_meta_default_tag (c : CacheCtx Req Res) (r : Req) (x : Res)
    (puid : String) (tags : List (String × String)) (routing : List (String × Int))
    (rp : List (String × String)) :
    (tagsGet tags PRED_UNIT_KEY = none →
      tagsGet (metaInit c.predUnitId puid tags routing rp).tags PRED_UNIT_KEY =
        some c.predUnitId) ∧
    (tagsGet tags PRED_UNIT_KEY = none →
      should_cache c r x (metaInit c.predUnitId puid tags routing rp) = true) ∧
    (should_cache c r x (metaInit c.predUnitId puid tags routing rp) = false ↔
      ∃ v, tagsGet tags PRED_UNIT_KEY = some v ∧ v ≠ c.predUnitId) := by
  have h0 : ∀ hnone : tagsGet tags PRED_UNIT_KEY = none,
      tagsGet (metaInit c.predUnitId puid tags routing rp).tags PRED_UNIT_KEY =
        some c.predUnitId := by
    intro hnone
    unfold metaInit
    rw [if_pos hnone, tagsGet_append, hnone]
    simp [tagsGet]
  refine ⟨h0, ?_, ?_⟩
  · intro hnone
    simp [should_cache, h0 hnone]
  · cases htag : tagsGet tags PRED_UNIT_KEY with
    | none =>
        have hsc := h0 htag
        simp [should_cache, hsc]
    | some v =>
        have htags : (metaInit c.predUnitId puid tags routing rp).tags = tags := by
          unfold metaInit
          rw [if_neg (by simp [htag])]
        simp [should_cache, htags, htag]

theorem C10_witness :
    tagsGet ([] : List (String × String)) PRED_UNIT_KEY = none ∧
    should_cache ctxSample 0 7 (metaInit ctxSample.predUnitId "p" [] [] []) = true := by
  have h := C10_meta_default_tag ctxSample 0 7 "p" [] [] []
  exact ⟨rfl, h.2.1 rfl⟩

/-- C2 counterexample: a successful `get_response` hit (the returned
value is `some 7`) that leaves the content entry's TTL at its old value
5 instead of refreshing it to `now + expirationDelta = 100`, so the TTL
of the content `CacheEntry` is not refreshed on a read hit. -/
theorem C2_counterexample :
    Except.map Prod.fst (get_response ctxSample storeC2 0 "p9" 0) = .ok (some 7) ∧
    (get_response ctxSample storeC2 0 "p9" 0).toOption.map
        (fun pr => pr.2 (requestToKey ctxSample 0)) =
      some (some ⟨"v", some 5⟩) ∧
    (some 5 : Option Nat) ≠ some (0 + ctxSample.expirationDelta) := by
  refine ⟨rfl, rfl, by decide⟩

/-- C2 amended: on every successful read hit the IndexKey entry is
written/refreshed with the configured TTL — `get_response` rewrites the
hit's puid entry with TTL `now + expirationDelta`, and `get_responses`
leaves every hit position's wrapped puid bound to a content key with
that same TTL — but the content entry (value and TTL alike) is never
touched by either read, so only the IndexKey side of the sliding window
holds. -/
theorem C2_read_refreshes_index_only (c : CacheCtx Req Res) (s : Store) (now : Nat)
    (p : String) (r : Req) (v : String) (cv : CacheValue Req Res)
    (hav : c.redisAvailable = true)
    (hhit : rget s (requestToKey c r) now = some v) (hv : v ≠ "")
    (hp : c.parseCV v = some cv) :
    get_response c s now p r =
      .ok (some cv.response,
        rset s (wrapPuid c p) (requestToKey c r) (some c.expirationDelta) now) ∧
    (rset s (wrapPuid c p) (requestToKey c r) (some c.expirationDelta) now)
        (wrapPuid c p) =
      some ⟨requestToKey c r, some (now + c.expirationDelta)⟩ ∧
    (∀ r' : Req,
      (rset s (wrapPuid c p) (requestToKey c r) (some c.expirationDelta) now)
          (requestToKey c r') = s (requestToKey c r')) ∧
    (∀ (ps : List String) (rs : List Req) (vals : List (Option Res)) (s' : Store),
      get_responses c s now ps rs = .ok (vals, s') →
      ∀ r' : Req, s' (requestToKey c r') = s (requestToKey c r')) ∧
    (∀ (ps : List String) (rs : List Req) (vals : List (Option Res)) (s' : Store)
      (i : Nat) (p0 : String) (v0 : Res),
      get_responses c s now ps rs = .ok (vals, s') →
      ps[i]? = some p0 → vals[i]? = some (some v0) →
      ∃ k, s' (wrapPuid c p0) = some ⟨k, some (now + c.expirationDelta)⟩) := by
  refine ⟨?_, ?_, ?_, ?_, ?_⟩
  · simp [get_response, hav, hhit, hv, hp]
  · simp [rset]
  · intro r'
    exact rset_ne _ _ _ _ _ _ (requestToKey_ne_wrapPuid c r' p)
  · intro ps rs vals s' hok r'
    exact get_responses_content_untouched c s now ps rs vals s' hok r'
  · intro ps rs vals s' i p0 v0 hok hpi hvi
    rw [get_responses_eq c s now ps rs hav, rawReads_eq] at hok
    cases hpr : parseResponses c (rs.map (fun r0 => rget s (requestToKey c r0) now)) with
    | error e => rw [hpr] at hok; cases hok
    | ok responses =>
        rw [hpr] at hok
        rcases ok_ite_inv2 _ _ _ _ _ _ hok with ⟨hvals, hcase⟩
        subst hvals
        have hrlen : vals.length = rs.length := by
          have hl := parseResponses_length c _ _ hpr
          simpa using hl
        have hilt : i < vals.length := by
          rcases List.getElem?_eq_some.mp hvi with ⟨hw, _⟩
          exact hw
        have hiltrs : i < rs.length := hrlen ▸ hilt
        have hkey : (rs.map (requestToKey c))[i]? = some (requestToKey c rs[i]) := by
          rw [List.getElem?_map, List.getElem?_eq_getElem hiltrs]
          rfl
        have hwpq : (ps.map (wrapPuid c))[i]? = some (wrapPuid c p0) := by
          rw [List.getElem?_map, hpi]
          rfl
        have hz2 : ((rs.map (requestToKey c)).zip vals)[i]? =
            some (requestToKey c rs[i], some v0) :=
          List.getElem?_zip_eq_some.mpr ⟨hkey, hvi⟩
        have hz : ((ps.map (wrapPuid c)).zip ((rs.map (requestToKey c)).zip vals))[i]? =
            some (wrapPuid c p0, (requestToKey c rs[i], some v0)) :=
          List.getElem?_zip_eq_some.mpr ⟨hwpq, hz2⟩
        have hmemfil : (wrapPuid c p0, (requestToKey c rs[i], some v0)) ∈
            ((ps.map (wrapPuid c)).zip ((rs.map (requestToKey c)).zip vals)).filter
              (fun t => t.2.2.isSome) :=
          List.mem_filter.mpr ⟨List.getElem?_mem hz, by simp⟩
        have hmemkey : wrapPuid c p0 ∈
            ((((ps.map (wrapPuid c)).zip ((rs.map (requestToKey c)).zip vals)).filter
              (fun t => t.2.2.isSome)).map (fun t => (t.1, t.2.1))).map
              (fun q => q.1) :=
          List.mem_map.mpr ⟨_, List.mem_map.mpr ⟨_, hmemfil, rfl⟩, rfl⟩
        obtain ⟨k, hk⟩ : ∃ k, msetVal (pyDict ((((ps.map (wrapPuid c)).zip
            ((rs.map (requestToKey c)).zip vals)).filter
              (fun t => t.2.2.isSome)).map (fun t => (t.1, t.2.1)))) (wrapPuid c p0) =
            some k := by
          rw [msetVal_pyDict]
          cases hmv : msetVal ((((ps.map (wrapPuid c)).zip
              ((rs.map (requestToKey c)).zip vals)).filter
                (fun t => t.2.2.isSome)).map (fun t => (t.1, t.2.1))) (wrapPuid c p0) with
          | some k => exact ⟨k, rfl⟩
          | none => exact absurd hmemkey ((msetVal_eq_none_iff _ _).mp hmv)
        have hne : (pyDict ((((ps.map (wrapPuid c)).zip
            ((rs.map (requestToKey c)).zip vals)).filter
              (fun t => t.2.2.isSome)).map (fun t => (t.1, t.2.1)))).isEmpty = false := by
          cases hD : pyDict ((((ps.map (wrapPuid c)).zip
              ((rs.map (requestToKey c)).zip vals)).filter
                (fun t => t.2.2.isSome)).map (fun t => (t.1, t.2.1))) with
          | nil => rw [hD] at hk; cases hk
          | cons a l => rfl
        rcases hcase with ⟨hb, _⟩ | ⟨_, hs'⟩
        · rw [hne] at hb
          cases hb
        · rw [hs']
          have hmem2 : wrapPuid c p0 ∈ (pyDict ((((ps.map (wrapPuid c)).zip
              ((rs.map (requestToKey c)).zip vals)).filter
                (fun t => t.2.2.isSome)).map (fun t => (t.1, t.2.1)))).map
                (fun q => q.1) := by
            by_contra hc
            rw [(msetVal_eq_none_iff _ _).mpr hc] at hk
            cases hk
          have hs'' : rmset s (pyDict ((((ps.map (wrapPuid c)).zip
              ((rs.map (requestToKey c)).zip vals)).filter
                (fun t => t.2.2.isSome)).map (fun t => (t.1, t.2.1)))) (wrapPuid c p0) =
              some ⟨k, none⟩ := by
            unfold rmset
            rw [hk]
          exact ⟨k, expireAll_refresh _ _ _ _ _ _ (Or.inl hs'') (Or.inl hmem2)⟩

theorem C2_amended_witness :
    rget storeC2 (requestToKey ctxSample 0) 0 = some "v" ∧
    get_response ctxSample storeC2 0 "p9" 0 =
      .ok (some 7,
        rset storeC2 (wrapPuid ctxSample "p9") (requestToKey ctxSample 0)
          (some ctxSample.expirationDelta) 0) ∧
    (∃ k, storeC2After (wrapPuid ctxSample "p9") =
      some ⟨k, some (0 + ctxSample.expirationDelta)⟩) := by
  have h := C2_read_refreshes_index_only ctxSample storeC2 0 "p9" 0 "v" cvSample rfl rfl
    (by decide) rfl
  exact ⟨rfl, h.1, h.2.2.2.2 ["p9"] [0] [some 7] storeC2After 0 "p9" 7 rfl rfl rfl⟩

/-- C3: when every position of a `set_responses` call is rejected by the
caching policy (or the input is empty), the tuple unpacking
`puids, keys, values = zip(*(...))` receives no elements and raises
`ValueError` instead of silently skipping, contradicting the claim and
the spec ("no entry, no error"). -/
theorem C3_set_responses_raises_when_all_rejected :
    set_responses ctxSample emptyStore 0 [0] [7] [metaBad] = .error "ValueError" ∧
    set_responses ctxSample emptyStore 0 [] [] [] = .error "ValueError" := ⟨rfl, rfl⟩

/-- C6: after a policy-accepted `set_response` with correlation id
`"abc"`, `get_cache_value "abc"` returns the full stored triple; and
when the index entry is absent, or dangling onto a missing content
entry, `get_cache_value` returns absent rather than raising. -/
theorem C6_feedback_resolution (c : CacheCtx Req Res) (s : Store) (now : Nat)
    (r : Req) (x : Res) (m : Meta)
    (hav : c.redisAvailable = true)
    (hsc : should_cache c r x m = true)
    (hpos : 0 < c.expirationDelta)
    (hser : c.serializeCV ⟨r, x, m⟩ ≠ "")
    (hparse : c.parseCV (c.serializeCV ⟨r, x, m⟩) = some ⟨r, x, m⟩)
    (hpuid : m.puid = "abc") :
    get_cache_value c (set_response c s now r x m) now "abc" = .ok (some ⟨r, x, m⟩) ∧
    (∀ (s0 : Store) (p : String), rget s0 (wrapPuid c p) now = none →
      get_cache_value c s0 now p = .ok none) ∧
    (∀ (s0 : Store) (p k : String), rget s0 (wrapPuid c p) now = some k → k ≠ "" →
      rget s0 k now = none → get_cache_value c s0 now p = .ok none) := by
  have hlt : now < now + c.expirationDelta := Nat.lt_add_of_pos_right hpos
  have hkne : requestToKey c r ≠ wrapPuid c m.puid := requestToKey_ne_wrapPuid c r m.puid
  have hset : set_response c s now r x m =
      rset (rset s (wrapPuid c m.puid) (requestToKey c r) (some c.expirationDelta) now)
        (requestToKey c r) (c.serializeCV ⟨r, x, m⟩) (some c.expirationDelta) now := by
    simp [set_response, hav, hsc]
  have h1 : rget (set_response c s now r x m) (wrapPuid c m.puid) now =
      some (requestToKey c r) := by
    rw [hset, rget_rset_ne _ _ _ _ _ _ _ (Ne.symm hkne)]
    simp [rget, rset, liveEntry, hlt]
  have h2 : rget (set_response c s now r x m) (requestToKey c r) now =
      some (c.serializeCV ⟨r, x, m⟩) := by
    rw [hset]
    simp [rget, rset, liveEntry, hlt]
  refine ⟨?_, ?_, ?_⟩
  · rw [← hpuid]
    simp [get_cache_value, hav, h1, h2, requestToKey_ne_empty c r, hser, hparse]
  · intro s0 p hnone
    simp [get_cache_value, hav, hnone]
  · intro s0 p k hidx hk hdangling
    simp [get_cache_value, hav, hidx, hk, hdangling]

theorem C6_witness :
    should_cache ctxAbc 0 7 metaAbc = true ∧
    get_cache_value ctxAbc (set_response ctxAbc emptyStore 0 0 7 metaAbc) 0 "abc" =
      .ok (some ⟨0, 7, metaAbc⟩) := by
  have h := C6_feedback_resolution ctxAbc emptyStore 0 0 7 metaAbc rfl (by decide)
    (by decide) (by decide) rfl rfl
  exact ⟨by decide, h.1⟩

/-- C5 counterexample: on a store with the client available, a
one-element list whose only triple is rejected by the policy makes
`set_responses` raise `ValueError`, while the item-by-item sequence of
`set_response`/`get_response` calls completes and returns absent — so
the batch and single paths are not equivalent as claimed. -/
theorem C5_counterexample :
    set_responses ctxSample emptyStore 0 [1] [7] [metaBad] = .error "ValueError" ∧
    seqSet ctxSample emptyStore 0 [(1, 7, metaBad)] = emptyStore ∧
    Except.map Prod.fst (seqGet ctxSample emptyStore 0 [("p2", 1)]) = .ok [none] :=
  ⟨rfl, rfl, rfl⟩

/-- C5 amended: provided that, when the store is available, at least one
triple is accepted by the caching policy, `set_responses` on the whole
list succeeds with exactly the store produced by item-by-item
`set_response` calls, and `get_responses` on the corresponding
(puid, request) lists returns, from any store, exactly the values (and
errors) of item-by-item `get_response` calls, in input order. -/
theorem C5_batch_single_equivalence (c : CacheCtx Req Res) (s : Store) (now : Nat)
    (ts : List (Req × Res × Meta))
    (hacc : c.redisAvailable = true →
      ts.filter (fun t => should_cache c t.1 t.2.1 t.2.2) ≠ []) :
    set_responses c s now (ts.map (fun t => t.1)) (ts.map (fun t => t.2.1))
        (ts.map (fun t => t.2.2)) = .ok (seqSet c s now ts) ∧
    ∀ s1 : Store,
      Except.map Prod.fst (get_responses c s1 now (ts.map (fun t => t.2.2.puid))
          (ts.map (fun t => t.1))) =
        Except.map Prod.fst (seqGet c s1 now
          ((ts.map (fun t => t.2.2.puid)).zip (ts.map (fun t => t.1)))) := by
  by_cases hav : c.redisAvailable = true
  · constructor
    · exact set_responses_eq_seqSet c s now ts hav (hacc hav)
    · intro s1
      rw [get_responses_vals c s1 now _ _ hav,
        seqGet_vals c now hav s1 ((ts.map (fun t => t.2.2.puid)).zip
          (ts.map (fun t => t.1))) s1 (fun pr _ => rfl)]
      refine congrArg (parseResponses c) ?_
      have h1 := List.map_snd_zip (ts.map (fun t => t.2.2.puid)) (ts.map (fun t => t.1))
        (by simp)
      have h2 : ((ts.map (fun t => t.2.2.puid)).zip (ts.map (fun t => t.1))).map
            (fun pr => rget s1 (requestToKey c pr.2) now) =
          (ts.map (fun t => t.1)).map (fun r => rget s1 (requestToKey c r) now) :=
        calc ((ts.map (fun t => t.2.2.puid)).zip (ts.map (fun t => t.1))).map
              (fun pr => rget s1 (requestToKey c pr.2) now)
            = (((ts.map (fun t => t.2.2.puid)).zip (ts.map (fun t => t.1))).map
                Prod.snd).map (fun r => rget s1 (requestToKey c r) now) := by
              rw [List.map_map]
              rfl
          _ = (ts.map (fun t => t.1)).map (fun r => rget s1 (requestToKey c r) now) := by
              rw [h1]
      exact h2.symm
  · have hoff : c.redisAvailable = false := by
      cases h : c.redisAvailable
      · rfl
      · exact absurd h hav
    constructor
    · rw [seqSet_off c now hoff ts s]
      simp [set_responses, hoff]
    · intro s1
      rw [seqGet_off c now hoff _ s1]
      have hoffg : get_responses c s1 now (ts.map (fun t => t.2.2.puid))
          (ts.map (fun t => t.1)) =
          .ok (List.replicate (ts.map (fun t => t.1)).length none, s1) := by
        simp [get_responses, hoff]
      rw [hoffg]
      show Except.ok (List.replicate (ts.map (fun t => t.1)).length none) =
        Except.ok (List.replicate ((ts.map (fun t => t.2.2.puid)).zip
          (ts.map (fun t => t.1))).length none)
      rw [List.length_zip]
      simp

theorem C5_witness :
    (ctxSample.redisAvailable = true →
      [(0, 7, metaGood)].filter
        (fun t => should_cache ctxSample t.1 t.2.1 t.2.2) ≠ []) ∧
    set_responses ctxSample emptyStore 0 [0] [7] [metaGood] =
      .ok (seqSet ctxSample emptyStore 0 [(0, 7, metaGood)]) := by
  have h := C5_batch_single_equivalence ctxSample emptyStore 0 [(0, 7, metaGood)]
    (fun _ => by decide)
  exact ⟨fun _ => by decide, h.1⟩

/-- C4 counterexample: one request missing the cache whose metadata the
caching policy rejects makes `_process_with_cache` raise `ValueError`
(through `set_responses`) instead of producing a length-1 result list,
even though the model executor returned one response per miss. -/
theorem C4_counterexample :
    processWithCache ctxSample emptyStore 0 [(metaBad, 0)]
      (fun l => l.map (fun _ => 7)) = .error "ValueError" := rfl

/-- C4 amended: provided the model executor returns one response per
miss and, when the store is available and there is at least one miss,
the policy accepts at least one computed triple, `_process_with_cache`
returns a list of the input's length in which every hit position keeps
its cached response and the miss positions carry the computed responses
in their original relative order. -/
theorem C4_partial_batch_merge (c : CacheCtx Req Res) (s : Store) (now : Nat)
    (msgs : List (Meta × Req)) (processFn : List Req → List Res)
    (responses : List (Option Res)) (s1 : Store)
    (hget : get_responses c s now (msgs.map (fun p => p.1.puid))
        (msgs.map (fun p => p.2)) = .ok (responses, s1))
    (hfresh : (processFn (missRequests msgs responses)).length =
      (missRequests msgs responses).length)
    (hacc : c.redisAvailable = true → missRequests msgs responses ≠ [] →
      (acceptedTriples c (missRequests msgs responses)
          (processFn (missRequests msgs responses))
          (missMetas msgs responses)).isEmpty = false) :
    ∃ out s2, processWithCache c s now msgs processFn = .ok (out, s2) ∧
      out.length = msgs.length ∧
      (∀ (i : Nat) (v : Res), responses[i]? = some (some v) → out[i]? = some (some v)) ∧
      ((responses.zip out).filter (fun pr => pr.1.isNone)).map (fun pr => pr.2) =
        (processFn (missRequests msgs responses)).map some := by
  have hlenresp : responses.length = msgs.length := by
    have h := get_responses_ok_length c s now _ _ responses s1 hget
    simpa using h
  have hlenreq : (msgs.map (fun p => p.2)).length = responses.length := by
    simp [hlenresp]
  have hcount : (missRequests msgs responses).length =
      responses.countP (fun o => o.isNone) := by
    unfold missRequests
    rw [List.length_map]
    exact zip_filter_none_length _ _ hlenreq
  by_cases hunc : (missRequests msgs responses).isEmpty = true
  · have huncnil : missRequests msgs responses = [] := by
      cases h : missRequests msgs responses with
      | nil => rfl
      | cons a l => rw [h] at hunc; cases hunc
    have hcount0 : responses.countP (fun o => o.isNone) = 0 := by
      rw [← hcount, huncnil]
      rfl
    have hfnil : processFn (missRequests msgs responses) = [] := by
      have h0 : (processFn (missRequests msgs responses)).length = 0 := by
        rw [hfresh, huncnil]
        rfl
      exact List.length_eq_zero.mp h0
    refine ⟨responses, s1, ?_, hlenresp, fun i v h => h, ?_⟩
    · simp only [processWithCache, hget, hunc, if_true]
    · rw [hfnil]
      have hflen : ((responses.zip responses).filter
          (fun pr => pr.1.isNone)).length = 0 := by
        rw [zip_self_filter_fst_none_length responses, hcount0]
      rw [List.length_eq_zero.mp hflen]
      rfl
  · have hunc' : (missRequests msgs responses).isEmpty = false := by
      cases h : (missRequests msgs responses).isEmpty
      · rfl
      · exact absurd h hunc
    have huncne : missRequests msgs responses ≠ [] := by
      intro h
      rw [h] at hunc
      exact hunc rfl
    have hmergelen : (processFn (missRequests msgs responses)).length =
        responses.countP (fun o => o.isNone) := by
      rw [hfresh, hcount]
    rcases mergeLoop_spec responses (processFn (missRequests msgs responses)) hmergelen
      with ⟨out, hml, hol, hfill, hkeep⟩
    obtain ⟨s2, hsr⟩ : ∃ s2, set_responses c s1 now (missRequests msgs responses)
        (processFn (missRequests msgs responses)) (missMetas msgs responses) =
          .ok s2 := by
      by_cases hav : c.redisAvailable = true
      · refine ⟨batchSetCore c s1 now (acceptedTriples c (missRequests msgs responses)
          (processFn (missRequests msgs responses)) (missMetas msgs responses)), ?_⟩
        simp [set_responses, hav, hacc hav huncne]
      · exact ⟨s1, by simp [set_responses, hav]⟩
    refine ⟨out, s2, ?_, by rw [hol, hlenresp], hkeep, hfill⟩
    simp [processWithCache, hget, hunc', hsr, hml]

theorem C4_witness :
    ∃ out s2,
      processWithCache ctxSample emptyStore 0 [(metaGood, 0)]
          (fun l => l.map (fun _ => 7)) = .ok (out, s2) ∧
      out.length = [(metaGood, 0)].length ∧
      (∀ (i : Nat) (v : Nat), [(none : Option Nat)][i]? = some (some v) →
        out[i]? = some (some v)) ∧
      (([(none : Option Nat)].zip out).filter (fun pr => pr.1.isNone)).map
          (fun pr => pr.2) =
        ((fun (l : List Nat) => l.map (fun _ => 7))
            (missRequests [(metaGood, 0)] ([none] : List (Option Nat)))).map some :=
  C4_partial_batch_merge ctxSample emptyStore 0 [(metaGood, 0)]
    (fun l => l.map (fun _ => 7)) [none] emptyStore rfl rfl (fun _ _ => by decide)

end B2S
